import Mathlib

/-!
# Verification of the moz-sql-parser grammar (src/moz_sql_parser/sql_parser.py)

This file is a shallow embedding of the pyparsing grammar defined in
`sql_parser.py`.  The grammar is scannerless: pyparsing elements skip
whitespace (and the two ignored line-comment forms) before matching, and the
parse actions (`to_json_operator`, `to_json_call`, `to_case_call`,
`to_when_call`, `to_join_call`, `unquote`) build the JSON-like AST.  Each
pyparsing combinator used by the source is compiled here to an explicit
recursive-descent function over `List Char` together with a position; the
mutual recursion between `expr` and `selectStmt` (two `Forward`s in the
source) is made total with an explicit fuel parameter.

The repository ships only the grammar module; the entry point that runs the
grammar over a whole input and converts the named `ParseResults` into the
JSON value (the package `__init__`) is not under `src/`.  Those two pieces
are modelled from the spec and marked `Modelled from the spec:` below.
-/

/-- The JSON-like AST values produced by the parser: Python `None`, `int`,
`float`, `str`, `list` and `dict` (dictionaries keep insertion order, so they
are association lists here).  A Python float produced by `ast.literal_eval`
on a numeric literal is represented by the source text of that literal (no
claim depends on the IEEE value of a real literal). -/
inductive Json where
  | null : Json
  | int (n : Int) : Json
  | real (source : String) : Json
  | str (s : String) : Json
  | arr (elems : List Json) : Json
  | obj (fields : List (String × Json)) : Json
deriving Repr

/-- One entry of the source's `KNOWN_OPS` table: the operator text, the AST
name, and whether the pyparsing element is a `Keyword` (for `in`, `and`,
`or`) or a `Literal` (for the symbolic operators). -/
structure OpSpec where
  op : String
  name : String
  isKeyword : Bool
deriving Repr, DecidableEq

/-- `KNOWN_OPS` from the source, in order.  `infixNotation` turns this list
into one precedence level per entry, tightest first. -/
def KNOWN_OPS : List OpSpec := [
  ⟨"*", "mult", false⟩,
  ⟨"/", "div", false⟩,
  ⟨"+", "add", false⟩,
  ⟨"-", "sub", false⟩,
  ⟨"=", "eq", false⟩,
  ⟨"==", "eq", false⟩,
  ⟨"!=", "neq", false⟩,
  ⟨"<>", "neq", false⟩,
  ⟨">", "gt", false⟩,
  ⟨"<", "lt", false⟩,
  ⟨">=", "gte", false⟩,
  ⟨"<=", "lte", false⟩,
  ⟨"in", "in", true⟩,
  ⟨"and", "and", true⟩,
  ⟨"or", "or", true⟩]

/-- The `keywords` list of the source.  Each becomes a caseless `Keyword`
and is part of `RESERVED`. -/
def keywords : List String :=
  ["select", "from", "where", "group by", "order by", "having", "with",
   "as", "desc", "case", "when", "then", "else", "end", "on",
   "cross join", "inner join", "join"]

/-- pyparsing's default `Keyword` identifier characters: `alphanums + "_$"`. -/
def identBodyChar (c : Char) : Bool :=
  c.isAlphanum || c = '_' || c = '$'

/-- pyparsing's default skippable whitespace characters. -/
def isWSChar (c : Char) : Bool :=
  c = ' ' || c = '\t' || c = '\n' || c = '\r'

/-- Length of `restOfLine`: everything up to (excluding) the next newline. -/
def lineLen : List Char → Nat
  | [] => 0
  | c :: cs => if c = '\n' then 0 else 1 + lineLen cs

/-- Number of characters skipped by pyparsing's `preParse` at the front of a
suffix: default whitespace plus the two ignored comment forms
(`-- ...` and `# ...`, each to end of line), repeatedly.  The `Bool` state
is true inside a comment (which a newline, itself whitespace, ends). -/
def wsLenAux : Bool → List Char → Nat
  | _, [] => 0
  | true, c :: cs =>
    if c = '\n' then 1 + wsLenAux false cs else 1 + wsLenAux true cs
  | false, '#' :: cs => 1 + wsLenAux true cs
  | false, '-' :: '-' :: cs => 2 + wsLenAux true cs
  | false, c :: cs => if isWSChar c then 1 + wsLenAux false cs else 0

def wsLen (cs : List Char) : Nat := wsLenAux false cs

/-- Position after whitespace/comment skipping, in the position model. -/
def skipWSPos (s : List Char) (pos : Nat) : Nat :=
  pos + wsLen (s.drop pos)

/-- Does `lit` occur at position `p` of `s` (caselessly when asked)?  This is
pyparsing `Literal` matching (no word-boundary checks). -/
def prefAt (caseless : Bool) (lit : List Char) (s : List Char) (p : Nat) : Bool :=
  if caseless then
    ((s.drop p).take lit.length).map Char.toLower = lit.map Char.toLower
  else
    (s.drop p).take lit.length = lit

/-- pyparsing `Keyword`'s trailing word-boundary check. -/
def boundAfter (s : List Char) (q : Nat) : Bool :=
  match s.get? q with
  | none => true
  | some c => !identBodyChar c

/-- pyparsing `Keyword`'s leading word-boundary check (`loc == 0 or
instring[loc-1] not in identChars`). -/
def boundBefore (s : List Char) (p : Nat) : Bool :=
  p = 0 || !identBodyChar (s.getD (p - 1) ' ')

/-- A pyparsing `Keyword kw` match at position `p` (no whitespace skipping;
the caller skips).  `caseless` is true for the statement keywords and false
for the `Keyword`-typed operators `in`/`and`/`or`. -/
def kwMatchAt (caseless : Bool) (kw : String) (s : List Char) (p : Nat) : Bool :=
  prefAt caseless kw.toList s p &&
  boundAfter s (p + kw.toList.length) &&
  boundBefore s p

/-- `RESERVED = MatchFirst(reserved)` succeeds at `p`: one of the caseless
keyword `Keyword`s or one of the `KNOWN_OPS` elements (symbolic `Literal`s,
or case-sensitive `Keyword`s for `in`/`and`/`or`) matches. -/
def reservedAt (s : List Char) (p : Nat) : Bool :=
  keywords.any (fun k => kwMatchAt true k s p) ||
  KNOWN_OPS.any (fun o =>
    if o.isKeyword then kwMatchAt false o.op s p
    else prefAt false o.op.toList s p)

/-- Result-carrying parser over the input and a position. -/
abbrev P (α : Type) := List Char → Nat → Option (α × Nat)

/-- pyparsing `Literal lit` (with leading skip), returning its text. -/
def litP (lit : String) : P String := fun s pos =>
  let p := skipWSPos s pos
  if prefAt false lit.toList s p then some (lit, p + lit.toList.length)
  else none

/-- pyparsing `Keyword kw` with `caseless=True` (with leading skip).  A
caseless `Keyword` returns its match string, not the input slice. -/
def kwP (kw : String) : P String := fun s pos =>
  let p := skipWSPos s pos
  if kwMatchAt true kw s p then some (kw, p + kw.toList.length) else none

/-- pyparsing `Keyword kw` without `caseless` (used for `in`/`and`/`or`). -/
def kwExactP (kw : String) : P String := fun s pos =>
  let p := skipWSPos s pos
  if kwMatchAt false kw s p then some (kw, p + kw.toList.length) else none

/-- The pyparsing element built for a `KNOWN_OPS` entry on line 52 of the
source: `o['type'](o['op'])`. -/
def matchOpP (o : OpSpec) : P String :=
  if o.isKeyword then kwExactP o.op else litP o.op

/-- `ZeroOrMore`: repeat a step until it fails (fuel-bounded; every step of
this grammar consumes input, so any fuel at least the input length is
enough). -/
def manyTail {α : Type} (step : P α) : Nat → List Char → Nat → List α × Nat
  | 0, _, pos => ([], pos)
  | fuel + 1, s, pos =>
    match step s pos with
    | none => ([], pos)
    | some (x, p) =>
      let r := manyTail step fuel s p
      (x :: r.1, r.2)

/-- pyparsing `Optional` (without a default): succeed with `none` consuming
nothing when the inner element fails. -/
def optP {α : Type} (p : P α) (s : List Char) (pos : Nat) : Option α × Nat :=
  match p s pos with
  | some (x, p') => (some x, p')
  | none => (none, pos)

/-- `delimitedList(sub)`: `sub + ZeroOrMore(Suppress(",") + sub)`. -/
def delimListP {α : Type} (sub : P α) (fuel : Nat) : P (List α) := fun s pos =>
  match sub s pos with
  | none => none
  | some (x, p) =>
    let r := manyTail (fun s q =>
      match litP "," s q with
      | none => none
      | some (_, q1) => sub s q1) fuel s p
    some (x :: r.1, r.2)

/-- Body of the regexes `\'(\'\'|\\.|[^'])*\'` (with `q = '\''`) and
`\"(\"\"|\\.|[^"])*\"` (with `q = '"'`), scanned greedily after the opening
quote: returns the raw body characters and the rest, which must start with
the closing quote.  A doubled quote is consumed as one alternative; a
backslash followed by any character but a newline is consumed by `\\.`
(regex `.` does not match a newline, in which case `[^q]` consumes the
backslash alone). -/
def strBody (q : Char) : List Char → Option (List Char × List Char)
  | [] => none
  | [c] => if c = q then some ([], [c]) else none
  | c :: c2 :: cs =>
    if c = q then
      if c2 = q then
        match strBody q cs with
        | none => none
        | some (b, r) => some (q :: q :: b, r)
      else some ([], c :: c2 :: cs)
    else if c = '\\' then
      if c2 = '\n' then
        match strBody q (c2 :: cs) with
        | none => none
        | some (b, r) => some ('\\' :: b, r)
      else
        match strBody q cs with
        | none => none
        | some (b, r) => some ('\\' :: c2 :: b, r)
    else
      match strBody q (c2 :: cs) with
      | none => none
      | some (b, r) => some (c :: b, r)

/-- Raw (still quoted) text of a quoted literal at position `p`, which must
hold the opening quote `q`; no leading skip (`Combine` contents are matched
adjacently). -/
def quotedRawAt (q : Char) (s : List Char) (p : Nat) : Option (String × Nat) :=
  match s.get? p with
  | none => none
  | some c =>
    if c = q then
      match strBody q (s.drop (p + 1)) with
      | none => none
      | some (b, r) =>
        match r with
        | c2 :: _ => if c2 = q then some (String.mk (q :: b ++ [q]), p + 1 + b.length + 1) else none
        | [] => none
    else none

/-- Python `str.replace(qq, \x5c q)`: left-to-right, non-overlapping
replacement of a doubled quote by backslash-quote. -/
def replaceDD (q : Char) : List Char → List Char
  | [] => []
  | [c] => [c]
  | c1 :: c2 :: rest =>
    if c1 = q && c2 = q then '\\' :: q :: replaceDD q rest
    else c1 :: replaceDD q (c2 :: rest)

def isOctal (c : Char) : Bool := '0' ≤ c && c ≤ '7'

def octVal (c : Char) : Nat := c.toNat - '0'.toNat

/-- Value of one hexadecimal digit (for the `\xhh` escape): `0`-`9` are code
points 48-57, `A`-`F` are 65-70, `a`-`f` are 97-102. -/
def hexVal (c : Char) : Option Nat :=
  if c.isDigit then some (c.toNat - 48)
  else if c.toNat ≥ 97 && c.toNat ≤ 102 then some (c.toNat - 87)
  else if c.toNat ≥ 65 && c.toNat ≤ 70 then some (c.toNat - 55)
  else none

/-- The string-literal decoding performed by `ast.literal_eval` on a quoted
literal with delimiter `q`: backslash escapes are decoded (`\n`, `\t`, `\r`,
`\\`, `\'`, `\"`, `\a`, `\b`, `\f`, `\v`, backslash-newline, octal and
`\xhh`); an unknown escape keeps the backslash; a bare delimiter inside the
body is a syntax error (`none`). -/
def pyDecode (q : Char) : List Char → Option (List Char)
  | [] => some []
  | '\\' :: rest =>
    match rest with
    | [] => none
    | c :: rs =>
      if c = 'n' then (pyDecode q rs).map (fun t => '\n' :: t)
      else if c = 't' then (pyDecode q rs).map (fun t => '\t' :: t)
      else if c = 'r' then (pyDecode q rs).map (fun t => '\r' :: t)
      else if c = '\\' then (pyDecode q rs).map (fun t => '\\' :: t)
      else if c = '\'' then (pyDecode q rs).map (fun t => '\'' :: t)
      else if c = '"' then (pyDecode q rs).map (fun t => '"' :: t)
      else if c = 'a' then (pyDecode q rs).map (fun t => Char.ofNat 7 :: t)
      else if c = 'b' then (pyDecode q rs).map (fun t => Char.ofNat 8 :: t)
      else if c = 'f' then (pyDecode q rs).map (fun t => Char.ofNat 12 :: t)
      else if c = 'v' then (pyDecode q rs).map (fun t => Char.ofNat 11 :: t)
      else if c = '\n' then pyDecode q rs
      else if isOctal c then
        match rs with
        | c2 :: c3 :: rs3 =>
          if isOctal c2 && isOctal c3 then
            (pyDecode q rs3).map (fun t => Char.ofNat (octVal c * 64 + octVal c2 * 8 + octVal c3) :: t)
          else if isOctal c2 then
            (pyDecode q (c3 :: rs3)).map (fun t => Char.ofNat (octVal c * 8 + octVal c2) :: t)
          else (pyDecode q (c2 :: c3 :: rs3)).map (fun t => Char.ofNat (octVal c) :: t)
        | [c2] =>
          if isOctal c2 then (pyDecode q []).map (fun t => Char.ofNat (octVal c * 8 + octVal c2) :: t)
          else (pyDecode q [c2]).map (fun t => Char.ofNat (octVal c) :: t)
        | [] => some [Char.ofNat (octVal c)]
      else if c = 'x' then
        match rs with
        | c2 :: c3 :: rs3 =>
          match hexVal c2, hexVal c3 with
          | some h1, some h2 => (pyDecode q rs3).map (fun t => Char.ofNat (h1 * 16 + h2) :: t)
          | _, _ => none
        | _ => none
      else (pyDecode q rs).map (fun t => '\\' :: c :: t)
  | c :: rs =>
    if c = q then none
    else (pyDecode q rs).map (fun t => c :: t)

/-- The numeric value of a run of decimal digits. -/
def digitsToNat : List Char → Nat → Nat
  | [], acc => acc
  | d :: ds, acc => digitsToNat ds (10 * acc + (d.toNat - 48))

/-- `ast.literal_eval` on unquoted numeric source text: plain signed digits
give an `int`; a decimal point or exponent gives a Python float, represented
here by its source text. -/
def numEval (val : String) : Json :=
  if val.toList.any (fun c => c = '.' || c = 'E' || c = 'e') then Json.real val
  else
    match val.toList with
    | '+' :: ds => Json.int (digitsToNat ds 0)
    | '-' :: ds => Json.int (-(digitsToNat ds 0 : Int))
    | ds => Json.int (digitsToNat ds 0)

/-- The source's `unquote` parse action: a single-quoted string has its
doubled quotes turned into backslash escapes and is then evaluated as a
quoted literal; same for a double-quoted identifier; anything else (the
numeric tokens) is evaluated directly. -/
def unquote (val : String) : Option Json :=
  let cs := val.toList
  if cs.head? = some '\'' && cs.getLast? = some '\'' then
    (pyDecode '\'' (replaceDD '\'' ((cs.drop 1).dropLast))).map (fun t => Json.str (String.mk t))
  else if cs.head? = some '"' && cs.getLast? = some '"' then
    (pyDecode '"' (replaceDD '"' ((cs.drop 1).dropLast))).map (fun t => Json.str (String.mk t))
  else some (numEval val)

/-- Maximal run of decimal digits (`Word(nums)`). -/
def digitRun : List Char → Nat
  | [] => 0
  | c :: cs => if c.isDigit then 1 + digitRun cs else 0

def digitRunAt (s : List Char) (p : Nat) : Nat := digitRun (s.drop p)

/-- Maximal run of `identBodyChar` (`Word`'s body `alphanums + "_$"`). -/
def bodyRun : List Char → Nat
  | [] => 0
  | c :: cs => if identBodyChar c then 1 + bodyRun cs else 0

/-- Maximal run of letters (`Word(alphas)`). -/
def alphaRun : List Char → Nat
  | [] => 0
  | c :: cs => if c.isAlpha then 1 + alphaRun cs else 0

/-- Exponent part of `realNum`: `CaselessLiteral("E") + Optional(arithSign) +
Word(nums)`, adjacent inside the `Combine`.  A `CaselessLiteral` returns its
match string, so the combined text always carries `E`.  Returns the empty
text (consuming nothing) when the optional part is absent. -/
def realExpAt (s : List Char) (p : Nat) : List Char × Nat :=
  match s.get? p with
  | some c =>
    if c = 'E' || c = 'e' then
      let sg := match s.get? (p + 1) with
        | some c2 => if c2 = '+' || c2 = '-' then ([c2], p + 2) else (([] : List Char), p + 1)
        | none => ([], p + 1)
      let d := digitRunAt s sg.2
      if d > 0 then ('E' :: sg.1 ++ (s.drop sg.2).take d, sg.2 + d) else ([], p)
    else ([], p)
  | none => ([], p)

/-- Exponent part of `intNum`: `CaselessLiteral("E") + Optional("+") +
Word(nums)` — only a plus sign is allowed here. -/
def intExpAt (s : List Char) (p : Nat) : List Char × Nat :=
  match s.get? p with
  | some c =>
    if c = 'E' || c = 'e' then
      let sg := match s.get? (p + 1) with
        | some '+' => ((['+'] : List Char), p + 2)
        | _ => (([] : List Char), p + 1)
      let d := digitRunAt s sg.2
      if d > 0 then ('E' :: sg.1 ++ (s.drop sg.2).take d, sg.2 + d) else ([], p)
    else ([], p)
  | none => ([], p)

/-- `realNum`: `Combine(Optional(arithSign) + (Word(nums) + "." +
Optional(Word(nums)) | ("." + Word(nums))) + Optional(E + Optional(arithSign)
+ Word(nums))).addParseAction(unquote)`. -/
def realNumP : P Json := fun s pos =>
  let p := skipWSPos s pos
  let sgn : List Char × Nat :=
    match s.get? p with
    | some c => if c = '+' || c = '-' then ([c], p + 1) else ([], p)
    | none => ([], p)
  let mant : Option (List Char × Nat) :=
    let d1 := digitRunAt s sgn.2
    if d1 > 0 && s.get? (sgn.2 + d1) = some '.' then
      let d2 := digitRunAt s (sgn.2 + d1 + 1)
      some ((s.drop sgn.2).take (d1 + 1 + d2), sgn.2 + d1 + 1 + d2)
    else if s.get? sgn.2 = some '.' then
      let d2 := digitRunAt s (sgn.2 + 1)
      if d2 > 0 then some ((s.drop sgn.2).take (1 + d2), sgn.2 + 1 + d2) else none
    else none
  match mant with
  | none => none
  | some (mtxt, p2) =>
    let ex := realExpAt s p2
    match unquote (String.mk (sgn.1 ++ mtxt ++ ex.1)) with
    | some j => some (j, ex.2)
    | none => none

/-- `intNum`: `Combine(Optional(arithSign) + Word(nums) + Optional(E +
Optional("+") + Word(nums))).addParseAction(unquote)`. -/
def intNumP : P Json := fun s pos =>
  let p := skipWSPos s pos
  let sgn : List Char × Nat :=
    match s.get? p with
    | some c => if c = '+' || c = '-' then ([c], p + 1) else ([], p)
    | none => ([], p)
  let d := digitRunAt s sgn.2
  if d > 0 then
    let ex := intExpAt s (sgn.2 + d)
    match unquote (String.mk (sgn.1 ++ (s.drop sgn.2).take d ++ ex.1)) with
    | some j => some (j, ex.2.max (sgn.2 + d))
    | none => none
  else none

/-- One unquoted or double-quoted segment of an identifier:
`Word(alphas, alphanums + "_$") | identString`, matched adjacently (inside
the identifier's `Combine`), with `identString`'s `unquote` action applied. -/
def identSegAt (s : List Char) (p : Nat) : Option (String × Nat) :=
  match s.get? p with
  | none => none
  | some c =>
    if c.isAlpha then
      let k := bodyRun (s.drop (p + 1))
      some (String.mk ((s.drop p).take (1 + k)), p + 1 + k)
    else if c = '"' then
      match quotedRawAt '"' s p with
      | none => none
      | some (raw, p') =>
        match unquote raw with
        | some (Json.str t) => some (t, p')
        | _ => none
    else none

/-- One `"." + segment` tail of the dotted identifier path
(`delimitedList(..., ".", combine=True)` keeps the dots in the text). -/
def dotSegStep : P String := fun s q =>
  if s.get? q = some '.' then
    match identSegAt s (q + 1) with
    | none => none
    | some (t, p') => some ("." ++ t, p')
  else none

/-- `ident = Literal("*") | Combine(~RESERVED + delimitedList(Word(alphas,
alphanums + "_$") | identString, ".", combine=True))`. -/
def identP : P Json := fun s pos =>
  let p := skipWSPos s pos
  if s.get? p = some '*' then some (Json.str "*", p + 1)
  else if reservedAt s p then none
  else
    match identSegAt s p with
    | none => none
    | some (t0, p1) =>
      let r := manyTail dotSegStep s.length s p1
      some (Json.str (t0 ++ String.join r.1), r.2)

/-- `sqlString = Combine(Regex(...)).addParseAction(unquote)`. -/
def sqlStringP : P Json := fun s pos =>
  let p := skipWSPos s pos
  match quotedRawAt '\'' s p with
  | none => none
  | some (raw, p') =>
    match unquote raw with
    | some j => some (j, p')
    | none => none

/-- `Word(alphas)` — the function-name token of the call production. -/
def wordAlphasP : P String := fun s pos =>
  let p := skipWSPos s pos
  let k := alphaRun (s.drop p)
  if k > 0 then some (String.mk ((s.drop p).take k), p + k) else none

/-- The flat token list matched by one `infixNotation` level: the first
operand followed by (operator text, operand) pairs, as pyparsing hands it to
the level's parse action. -/
def interleave (x : Json) : List (String × Json) → List Json
  | [] => [x]
  | (o, y) :: rest => x :: Json.str o :: interleave y rest

/-- `filter(lambda o: o['op'] == tok[1], KNOWN_OPS)[0]['name']`: the AST
name of the operator whose text was matched. -/
def opNameOf (opTxt : String) : String :=
  match KNOWN_OPS.filter (fun o => o.op = opTxt) with
  | o :: _ => o.name
  | [] => ""

/-- `to_json_operator`: looks up the operator name of the token at index 1
in `KNOWN_OPS` and collects the operands (the even-indexed tokens,
`[tok[i * 2] for i in range(int((len(tok) + 1) / 2))]`). -/
def to_json_operator (tok : List Json) : Json :=
  let opTxt := match tok.getD 1 Json.null with
    | Json.str s => s
    | _ => ""
  Json.obj [(opNameOf opTxt, Json.arr ((List.range ((tok.length + 1) / 2)).map
    (fun i => tok.getD (i * 2) Json.null)))]

/-- Python's `str.lower()` (ASCII, character by character). -/
def strLower (s : String) : String :=
  String.mk (s.toList.map Char.toLower)

/-- `to_json_call`: `{op.lower(): params}` where an absent/empty parameter
list becomes `None` and a single parameter is unwrapped. -/
def to_json_call (op : String) (params : List Json) : Json :=
  match params with
  | [] => Json.obj [(strLower op, Json.null)]
  | [x] => Json.obj [(strLower op, x)]
  | xs => Json.obj [(strLower op, Json.arr xs)]

/-- `to_when_call`. -/
def to_when_call (w t : Json) : Json :=
  Json.obj [("when", w), ("then", t)]

/-- `to_case_call`: the when/then pairs, with the else expression (always a
non-empty group when present, hence truthy) appended last. -/
def to_case_call (whens : List Json) (els : Option Json) : Json :=
  Json.obj [("case", Json.arr (whens ++ (match els with | some e => [e] | none => [])))]

/-- `to_join_call`: `{op: join}` plus the `on` key when present (the `on`
group is non-empty, hence truthy). -/
def to_join_call (op : String) (t : Json) (onE : Option Json) : Json :=
  Json.obj ([(op, t)] ++ (match onE with | some e => [("on", e)] | none => []))

/-- One `operator + operand` step inside an `infixNotation` level. -/
def opPairStep (o : OpSpec) (sub : P Json) : P (String × Json) := fun s q =>
  match matchOpP o s q with
  | none => none
  | some (t, q1) =>
    match sub s q1 with
    | none => none
    | some (y, q2) => some ((t, y), q2)

/-- One left-associative binary `infixNotation` level: `sub + ZeroOrMore(op
+ sub)`; with at least one operator the flat token list goes through
`to_json_operator`, otherwise the lone operand passes through unchanged. -/
def parseLevel (fuel : Nat) (o : OpSpec) (sub : P Json) : P Json := fun s pos =>
  match sub s pos with
  | none => none
  | some (x, p) =>
    let r := manyTail (opPairStep o sub) fuel s p
    match r.1 with
    | [] => some (x, p)
    | _ :: _ => some (to_json_operator (interleave x r.1), r.2)

/-- `Optional(Optional(AS) + ident("name"))`'s inner element: the column /
table alias. -/
def aliasP : P Json := fun s pos =>
  let r := optP (kwP "as") s pos
  identP s r.2

/-- `tableName = ident("value") + Optional(AS) + ident("name") | ident`:
with an alias the named results give `{value, name}`; without one the bare
identifier string itself is the table reference. -/
def tableNameP : P Json := fun s pos =>
  (match identP s pos with
   | none => none
   | some (v, p1) =>
     let r := optP (kwP "as") s p1
     match identP s r.2 with
     | none => none
     | some (n, p2) => some (Json.obj [("value", v), ("name", n)], p2)
   ) <|> identP s pos

/-- `CROSSJOIN | INNERJOIN | JOIN`, each a caseless `Keyword` returning its
match string. -/
def joinKwP : P String := fun s pos =>
  kwP "cross join" s pos <|> kwP "inner join" s pos <|> kwP "join" s pos

/-- A key/value that is present only when the optional clause matched. -/
def optField (k : String) : Option Json → List (String × Json)
  | some v => [(k, v)]
  | none => []

mutual

/-- `expr << Group(infixNotation(compound, [...KNOWN_OPS...]))`: one
left-associative binary level per `KNOWN_OPS` entry, first entry tightest
(innermost).  The `Group` is pyparsing plumbing collapsed by the result
conversion, so the expression value itself is returned. -/
def exprP : Nat → P Json
  | 0 => fun _ _ => none
  | fuel + 1 => fun s pos =>
    (KNOWN_OPS.foldl (fun acc o => parseLevel fuel o acc) (compoundP fuel)) s pos

/-- `compound`, the `MatchFirst` of primary productions, in source order. -/
def compoundP : Nat → P Json
  | 0 => fun _ _ => none
  | fuel + 1 => fun s pos =>
    compoundNegP fuel s pos <|>
    compoundNotP fuel s pos <|>
    compoundDistinctP fuel s pos <|>
    caseExprP fuel s pos <|>
    selectStmtP fuel s pos <|>
    parenExprP fuel s pos <|>
    realNumP s pos <|>
    intNumP s pos <|>
    sqlStringP s pos <|>
    funcCallP fuel s pos <|>
    identP s pos

/-- `(Literal("-").setResultsValue("neg")("op") + expr("params"))
.addParseAction(to_json_call)`: the op token's result value is set to
`"neg"`, so the call action builds `{neg: operand}`. -/
def compoundNegP : Nat → P Json
  | 0 => fun _ _ => none
  | fuel + 1 => fun s pos =>
    match litP "-" s pos with
    | none => none
    | some (_, p1) =>
      match exprP fuel s p1 with
      | none => none
      | some (e, p2) => some (to_json_call "neg" [e], p2)

/-- `(Keyword("not", caseless=True)("op") + expr("params"))`. -/
def compoundNotP : Nat → P Json
  | 0 => fun _ _ => none
  | fuel + 1 => fun s pos =>
    match kwP "not" s pos with
    | none => none
    | some (op, p1) =>
      match exprP fuel s p1 with
      | none => none
      | some (e, p2) => some (to_json_call op [e], p2)

/-- `(Keyword("distinct", caseless=True)("op") + expr("params"))`. -/
def compoundDistinctP : Nat → P Json
  | 0 => fun _ _ => none
  | fuel + 1 => fun s pos =>
    match kwP "distinct" s pos with
    | none => none
    | some (op, p1) =>
      match exprP fuel s p1 with
      | none => none
      | some (e, p2) => some (to_json_call op [e], p2)

/-- One `WHEN expr THEN expr` pair with `to_when_call`. -/
def whenThenP : Nat → P Json
  | 0 => fun _ _ => none
  | fuel + 1 => fun s pos =>
    match kwP "when" s pos with
    | none => none
    | some (_, p1) =>
      match exprP fuel s p1 with
      | none => none
      | some (w, p2) =>
        match kwP "then" s p2 with
        | none => none
        | some (_, p3) =>
          match exprP fuel s p3 with
          | none => none
          | some (t, p4) => some (to_when_call w t, p4)

/-- `ELSE + expr("else")`. -/
def elseClauseP : Nat → P Json
  | 0 => fun _ _ => none
  | fuel + 1 => fun s pos =>
    match kwP "else" s pos with
    | none => none
    | some (_, p1) => exprP fuel s p1

/-- `case = (CASE + Group(ZeroOrMore(whenThen))("case") + Optional(ELSE +
expr("else")) + END).addParseAction(to_case_call)`. -/
def caseExprP : Nat → P Json
  | 0 => fun _ _ => none
  | fuel + 1 => fun s pos =>
    match kwP "case" s pos with
    | none => none
    | some (_, p1) =>
      let rw := manyTail (whenThenP fuel) (fuel + 1) s p1
      let re := optP (elseClauseP fuel) s rw.2
      match kwP "end" s re.2 with
      | none => none
      | some (_, p2) => some (to_case_call rw.1 re.1, p2)

/-- `Literal("(").suppress() + Group(delimitedList(expr)) +
Literal(")").suppress()`: a parenthesized comma-separated expression list;
a single expression stands for itself. -/
def parenExprP : Nat → P Json
  | 0 => fun _ _ => none
  | fuel + 1 => fun s pos =>
    match litP "(" s pos with
    | none => none
    | some (_, p1) =>
      match delimListP (exprP fuel) (fuel + 1) s p1 with
      | none => none
      | some (es, p2) =>
        match litP ")" s p2 with
        | none => none
        | some (_, p3) => some ((match es with | [e] => e | _ => Json.arr es), p3)

/-- `(Word(alphas)("op") + Literal("(") + Optional(Group(delimitedList(expr))
("params")) + ")").addParseAction(to_json_call)`. -/
def funcCallP : Nat → P Json
  | 0 => fun _ _ => none
  | fuel + 1 => fun s pos =>
    match wordAlphasP s pos with
    | none => none
    | some (nm, p1) =>
      match litP "(" s p1 with
      | none => none
      | some (_, p2) =>
        let ra := optP (delimListP (exprP fuel) (fuel + 1)) s p2
        match litP ")" s ra.2 with
        | none => none
        | some (_, p3) => some (to_json_call nm (ra.1.getD []), p3)

/-- A column of the select list:
`Group(Group(expr)("value") + Optional(Optional(AS) + ident("name")) |
Literal('*')("value"))`, converted to `{value, name?}` per spec §3. -/
def selectColumnP : Nat → P Json
  | 0 => fun _ _ => none
  | fuel + 1 => fun s pos =>
    (match exprP fuel s pos with
     | none => none
     | some (e, p1) =>
       let ra := optP aliasP s p1
       some (Json.obj ([("value", e)] ++
         (match ra.1 with | some n => [("name", n)] | none => [])), ra.2)
     ) <|>
    (match litP "*" s pos with
     | none => none
     | some (_, p1) => some (Json.obj [("value", Json.str "*")], p1))

/-- `join = ((CROSSJOIN | INNERJOIN | JOIN)("op") + tableName("join") +
Optional(ON + expr("on"))).addParseAction(to_join_call)`. -/
def joinP : Nat → P Json
  | 0 => fun _ _ => none
  | fuel + 1 => fun s pos =>
    match joinKwP s pos with
    | none => none
    | some (op, p1) =>
      match tableNameP s p1 with
      | none => none
      | some (t, p2) =>
        let ro := optP (onClauseP fuel) s p2
        some (to_join_call op t ro.1, ro.2)

/-- `ON + expr("on")`. -/
def onClauseP : Nat → P Json
  | 0 => fun _ _ => none
  | fuel + 1 => fun s pos =>
    match kwP "on" s pos with
    | none => none
    | some (_, p1) => exprP fuel s p1

/-- `sortColumn = expr("value") + Optional(DESC("sort")) | expr("value")`,
converted to `{value, sort?}` per spec §3 (the second alternative is
subsumed by the optionality of `DESC`). -/
def sortColumnP : Nat → P Json
  | 0 => fun _ _ => none
  | fuel + 1 => fun s pos =>
    match exprP fuel s pos with
    | none => none
    | some (e, p1) =>
      let rd := optP (kwP "desc") s p1
      some (Json.obj ([("value", e)] ++
        (match rd.1 with | some _ => [("sort", Json.str "desc")] | none => [])), rd.2)

/-- `FROM.suppress() + (delimitedList(Group(tableName)) + ZeroOrMore(join))`,
the value of the `"from"` results name: the table references followed by the
joins. -/
def fromClauseP : Nat → P Json
  | 0 => fun _ _ => none
  | fuel + 1 => fun s pos =>
    match kwP "from" s pos with
    | none => none
    | some (_, p1) =>
      match delimListP tableNameP (fuel + 1) s p1 with
      | none => none
      | some (tbls, p2) =>
        let rj := manyTail (joinP fuel) (fuel + 1) s p2
        some (Json.arr (tbls ++ rj.1), rj.2)

/-- `WHERE.suppress() + expr`. -/
def whereClauseP : Nat → P Json
  | 0 => fun _ _ => none
  | fuel + 1 => fun s pos =>
    match kwP "where" s pos with
    | none => none
    | some (_, p1) => exprP fuel s p1

/-- `GROUPBY.suppress() + delimitedList(Group(selectColumn))("groupby")`. -/
def groupbyClauseP : Nat → P Json
  | 0 => fun _ _ => none
  | fuel + 1 => fun s pos =>
    match kwP "group by" s pos with
    | none => none
    | some (_, p1) =>
      match delimListP (selectColumnP fuel) (fuel + 1) s p1 with
      | none => none
      | some (cols, p2) => some (Json.arr cols, p2)

/-- `HAVING.suppress() + expr("having")`. -/
def havingClauseP : Nat → P Json
  | 0 => fun _ _ => none
  | fuel + 1 => fun s pos =>
    match kwP "having" s pos with
    | none => none
    | some (_, p1) => exprP fuel s p1

/-- `ORDERBY.suppress() + delimitedList(Group(sortColumn))("orderby")`. -/
def orderbyClauseP : Nat → P Json
  | 0 => fun _ _ => none
  | fuel + 1 => fun s pos =>
    match kwP "order by" s pos with
    | none => none
    | some (_, p1) =>
      match delimListP (sortColumnP fuel) (fuel + 1) s p1 with
      | none => none
      | some (cols, p2) => some (Json.arr cols, p2)

/-- `selectStmt << (SELECT.suppress() + delimitedList(selectColumn)("select")
+ Optional(Optional(from)("from") + Optional(where)("where") +
Optional(groupby) + Optional(having) + Optional(orderby)))`.

The conversion of the named results into the JSON object is *Modelled from
the spec:* the package `__init__` that performs it is not under `src/`; per
spec §3 the Select node carries the keys `select`, `from`, `where`,
`groupby`, `having`, `orderby`, each optional clause present exactly when it
was parsed.  (The outer `Optional` of the source adds nothing: its body is a
sequence of `Optional`s and so never fails.) -/
def selectStmtP : Nat → P Json
  | 0 => fun _ _ => none
  | fuel + 1 => fun s pos =>
    match kwP "select" s pos with
    | none => none
    | some (_, p1) =>
      match delimListP (selectColumnP fuel) (fuel + 1) s p1 with
      | none => none
      | some (cols, p2) =>
        let rf := optP (fromClauseP fuel) s p2
        let rw := optP (whereClauseP fuel) s rf.2
        let rg := optP (groupbyClauseP fuel) s rw.2
        let rh := optP (havingClauseP fuel) s rg.2
        let ro := optP (orderbyClauseP fuel) s rh.2
        some (Json.obj ([("select", Json.arr cols)] ++
          optField "from" rf.1 ++ optField "where" rw.1 ++
          optField "groupby" rg.1 ++ optField "having" rh.1 ++
          optField "orderby" ro.1), ro.2)

end

/-- Fuel that is ample for every input considered in this development: each
grammar production consumes one unit, so nesting depth up to 60 is covered. -/
def FUEL : Nat := 60

/-- Modelled from the spec: the package entry point (the `__init__` module,
not under `src/`) runs `SQLParser` over the whole input — "text in, AST
value out or a descriptive parse failure" (§1, §6); "There is no
partial/recovered AST on failure — parsing is all-or-nothing" (§7); "All
errors are reported with the input offset ... where parsing could make no
further progress" (§7).  A grammar failure is `Except.error none`; input
left over after the statement causes `Except.error (some offset)` with the
offset of the first unconsumed character. -/
def parseSQL (input : String) : Except (Option Nat) Json :=
  let s := input.toList
  match selectStmtP FUEL s 0 with
  | none => Except.error none
  | some (ast, p) =>
    let q := skipWSPos s p
    if q = s.length then Except.ok ast else Except.error (some q)

/-- Expression-level entry point (the grammar's `expr`), for claims about
the expression grammar alone. -/
def parseExpr (input : String) : Option Json :=
  match exprP FUEL input.toList 0 with
  | some (j, _) => some j
  | none => none

/-- Key lookup in an AST object's (insertion-ordered) field list. -/
def lookupPairs : List (String × Json) → String → Option Json
  | [], _ => none
  | (k', v) :: rest, k => if k' = k then some v else lookupPairs rest k

/-- Key lookup in an AST node. -/
def lookupField : Json → String → Option Json
  | Json.obj fs, k => lookupPairs fs k
  | _, _ => none

/-- A Join AST node as built by `to_join_call`: an object whose first key is
one of the three join operators. -/
def isJoinNode : Json → Bool
  | Json.obj ((k, _) :: _) => k = "cross join" || k = "inner join" || k = "join"
  | _ => false

/-! ## Helper lemmas -/

theorem optP_some {α : Type} {p : P α} {s : List Char} {pos : Nat} {x : α}
    (h : (optP p s pos).1 = some x) : p s pos = some (x, (optP p s pos).2) := by
  unfold optP at h ⊢
  cases hp : p s pos with
  | none => rw [hp] at h; exact absurd h (by simp)
  | some v => obtain ⟨y, q'⟩ := v; simp_all

theorem manyTail_all {α : Type} (step : P α) (Q : α → Prop)
    (hstep : ∀ s pos x p, step s pos = some (x, p) → Q x) :
    ∀ (fuel : Nat) (s : List Char) (pos : Nat),
      ∀ x ∈ (manyTail step fuel s pos).1, Q x := by
  intro fuel
  induction fuel with
  | zero => intro s pos x hx; simp [manyTail] at hx
  | succ fuel ih =>
    intro s pos x hx
    rw [manyTail] at hx
    cases hs : step s pos with
    | none => rw [hs] at hx; simp at hx
    | some v =>
      obtain ⟨y, p⟩ := v
      rw [hs] at hx
      simp only [List.mem_cons] at hx
      rcases hx with h | h
      · exact h ▸ hstep s pos y p hs
      · exact ih s p x h

theorem delimListP_all {α : Type} {Q : α → Prop} (sub : P α)
    (hsub : ∀ s pos x p, sub s pos = some (x, p) → Q x)
    (fuel : Nat) (s : List Char) (pos : Nat) (xs : List α) (p' : Nat)
    (h : delimListP sub fuel s pos = some (xs, p')) :
    xs ≠ [] ∧ ∀ x ∈ xs, Q x := by
  unfold delimListP at h
  cases hs : sub s pos with
  | none => rw [hs] at h; exact absurd h (by simp)
  | some v =>
    obtain ⟨x0, p0⟩ := v
    rw [hs] at h
    simp only [Option.some.injEq, Prod.mk.injEq] at h
    obtain ⟨hxs, _⟩ := h
    subst hxs
    refine ⟨by simp, ?_⟩
    intro x hx
    simp only [List.mem_cons] at hx
    rcases hx with h | h
    · exact h ▸ hsub s pos x0 p0 hs
    · refine manyTail_all _ Q ?_ fuel s p0 x h
      intro s' pos' y q hy
      cases hc : litP "," s' pos' with
      | none => rw [hc] at hy; exact absurd hy (by simp)
      | some w => rw [hc] at hy; exact hsub s' w.2 y q hy

theorem identP_is_str {s : List Char} {pos : Nat} {j : Json} {p : Nat}
    (h : identP s pos = some (j, p)) : ∃ t, j = Json.str t := by
  simp only [identP] at h
  split at h
  · exact ⟨"*", by simp_all⟩
  · split at h
    · exact absurd h (by simp)
    · cases hseg : identSegAt s (skipWSPos s pos) with
      | none => rw [hseg] at h; exact absurd h (by simp)
      | some v =>
        obtain ⟨t0, p1⟩ := v
        rw [hseg] at h
        simp only [Option.some.injEq, Prod.mk.injEq] at h
        exact ⟨_, h.1.symm⟩

theorem tableNameP_not_join {s : List Char} {pos : Nat} {t : Json} {p : Nat}
    (h : tableNameP s pos = some (t, p)) : isJoinNode t = false := by
  simp only [tableNameP] at h
  cases hv : identP s pos with
  | none => simp only [hv, Option.none_orElse] at h; exact absurd h (by simp)
  | some v =>
    obtain ⟨v0, p1⟩ := v
    simp only [hv] at h
    cases hn : identP s (optP (kwP "as") s p1).2 with
    | none =>
      simp only [hn, Option.none_orElse, Option.some.injEq, Prod.mk.injEq] at h
      obtain ⟨t1, ht1⟩ := identP_is_str hv
      subst ht1
      rw [← h.1]
      simp [isJoinNode]
    | some w =>
      obtain ⟨n0, p2⟩ := w
      simp only [hn, Option.some_orElse, Option.some.injEq, Prod.mk.injEq] at h
      rw [← h.1]
      simp [isJoinNode]

theorem joinKwP_ops {s : List Char} {pos : Nat} {op : String} {p : Nat}
    (h : joinKwP s pos = some (op, p)) :
    op = "cross join" ∨ op = "inner join" ∨ op = "join" := by
  simp only [joinKwP] at h
  cases h1 : kwP "cross join" s pos with
  | some v =>
    simp only [h1, Option.some_orElse, Option.some.injEq] at h
    left
    simp only [kwP] at h1
    split at h1 <;> simp_all
  | none =>
    simp only [h1, Option.none_orElse] at h
    cases h2 : kwP "inner join" s pos with
    | some v =>
      simp only [h2, Option.some_orElse, Option.some.injEq] at h
      right; left
      simp only [kwP] at h2
      split at h2 <;> simp_all
    | none =>
      simp only [h2, Option.none_orElse] at h
      right; right
      simp only [kwP] at h
      split at h <;> simp_all

theorem joinP_is_join {fuel : Nat} {s : List Char} {pos : Nat} {j : Json} {p : Nat}
    (h : joinP fuel s pos = some (j, p)) : isJoinNode j = true := by
  match fuel with
  | 0 => exact absurd h (by simp [joinP])
  | fuel + 1 =>
    simp only [joinP] at h
    cases hk : joinKwP s pos with
    | none => simp only [hk] at h; exact absurd h (by simp)
    | some v =>
      obtain ⟨op, p1⟩ := v
      simp only [hk] at h
      cases ht : tableNameP s p1 with
      | none => simp only [ht] at h; exact absurd h (by simp)
      | some w =>
        obtain ⟨t, p2⟩ := w
        simp only [ht, Option.some.injEq, Prod.mk.injEq] at h
        rw [← h.1]
        rcases joinKwP_ops hk with ho | ho | ho <;>
          subst ho <;>
          cases hoe : (optP (onClauseP fuel) s p2).1 <;>
          simp [to_join_call, isJoinNode, hoe]

theorem fromClauseP_shape {fuel : Nat} {s : List Char} {pos : Nat} {fv : Json} {p' : Nat}
    (h : fromClauseP fuel s pos = some (fv, p')) :
    ∃ tables joins : List Json,
      fv = Json.arr (tables ++ joins) ∧ tables ≠ [] ∧
      (∀ t ∈ tables, isJoinNode t = false) ∧
      (∀ j ∈ joins, isJoinNode j = true) := by
  match fuel with
  | 0 => exact absurd h (by simp [fromClauseP])
  | fuel + 1 =>
    simp only [fromClauseP] at h
    cases hk : kwP "from" s pos with
    | none => simp only [hk] at h; exact absurd h (by simp)
    | some v =>
      obtain ⟨_, p1⟩ := v
      simp only [hk] at h
      cases hd : delimListP tableNameP (fuel + 1) s p1 with
      | none => simp only [hd] at h; exact absurd h (by simp)
      | some w =>
        obtain ⟨tbls, p2⟩ := w
        simp only [hd, Option.some.injEq, Prod.mk.injEq] at h
        obtain ⟨htbls, hall⟩ :=
          delimListP_all tableNameP
            (fun s' pos' x q hx => tableNameP_not_join hx) (fuel + 1) s p1 tbls p2 hd
        refine ⟨tbls, (manyTail (joinP fuel) (fuel + 1) s p2).1, h.1.symm, htbls, hall, ?_⟩
        exact manyTail_all (joinP fuel) (fun j => isJoinNode j = true)
          (fun s' pos' x q hx => joinP_is_join hx) (fuel + 1) s p2

theorem lookupPairs_cons_ne {k0 k : String} (hne : k0 ≠ k) (v : Json)
    (rest : List (String × Json)) :
    lookupPairs ((k0, v) :: rest) k = lookupPairs rest k := by
  simp [lookupPairs, hne]

theorem lookupPairs_optField_ne {k k' : String} (hne : k ≠ k') (o : Option Json)
    (rest : List (String × Json)) :
    lookupPairs (optField k o ++ rest) k' = lookupPairs rest k' := by
  cases o with
  | none => simp [optField]
  | some v => simp [optField, lookupPairs, hne]

theorem lookupPairs_optField_ne_nil {k k' : String} (hne : k ≠ k') (o : Option Json) :
    lookupPairs (optField k o) k' = none := by
  cases o with
  | none => simp [optField, lookupPairs]
  | some v => simp [optField, lookupPairs, hne]

theorem selectStmtP_from {fuel : Nat} {s : List Char} {pos : Nat} {ast : Json} {p' : Nat}
    (h : selectStmtP fuel s pos = some (ast, p')) {fv : Json}
    (hl : lookupField ast "from" = some fv) :
    ∃ tables joins : List Json,
      fv = Json.arr (tables ++ joins) ∧ tables ≠ [] ∧
      (∀ t ∈ tables, isJoinNode t = false) ∧
      (∀ j ∈ joins, isJoinNode j = true) := by
  match fuel with
  | 0 => exact absurd h (by simp [selectStmtP])
  | fuel + 1 =>
    simp only [selectStmtP] at h
    cases hk : kwP "select" s pos with
    | none => simp only [hk] at h; exact absurd h (by simp)
    | some v =>
      obtain ⟨_, p1⟩ := v
      simp only [hk] at h
      cases hd : delimListP (selectColumnP fuel) (fuel + 1) s p1 with
      | none => simp only [hd] at h; exact absurd h (by simp)
      | some w =>
        obtain ⟨cols, p2⟩ := w
        simp only [hd, Option.some.injEq, Prod.mk.injEq] at h
        rw [← h.1] at hl
        simp only [lookupField, List.append_assoc, List.cons_append,
          List.nil_append] at hl
        rw [lookupPairs_cons_ne (by decide)] at hl
        cases hf : (optP (fromClauseP fuel) s p2).1 with
        | none =>
          rw [hf] at hl
          rw [show optField "from" none = [] from rfl, List.nil_append] at hl
          rw [lookupPairs_optField_ne (by decide)] at hl
          rw [lookupPairs_optField_ne (by decide)] at hl
          rw [lookupPairs_optField_ne (by decide)] at hl
          rw [lookupPairs_optField_ne_nil (by decide)] at hl
          exact absurd hl (by simp)
        | some fv0 =>
          rw [hf] at hl
          simp only [optField, List.cons_append, lookupPairs, reduceIte] at hl
          have hfrom := optP_some hf
          have hshape := fromClauseP_shape hfrom
          have : fv0 = fv := by
            by_cases hff : ("from" : String) = "from"
            · simpa [hff] using hl
            · exact absurd rfl hff
          exact this ▸ hshape

theorem interleave_extract (pairs : List (String × Json)) :
    ∀ x : Json,
      (List.range (((interleave x pairs).length + 1) / 2)).map
        (fun i => (interleave x pairs).getD (i * 2) Json.null)
      = x :: pairs.map Prod.snd := by
  induction pairs with
  | nil => intro x; simp [interleave, List.range_succ]
  | cons hd ps ih =>
    intro x
    obtain ⟨o, y⟩ := hd
    have hlen : ((interleave x ((o, y) :: ps)).length + 1) / 2
        = ((interleave y ps).length + 1) / 2 + 1 := by
      simp only [interleave, List.length_cons]
      omega
    rw [hlen, List.range_succ_eq_map, List.map_cons, List.map_map]
    have h0 : (interleave x ((o, y) :: ps)).getD (0 * 2) Json.null = x := by
      simp [interleave]
    rw [h0]
    have hshift : ∀ i : Nat,
        ((fun i => (interleave x ((o, y) :: ps)).getD (i * 2) Json.null) ∘ Nat.succ) i
        = (interleave y ps).getD (i * 2) Json.null := by
      intro i
      show (interleave x ((o, y) :: ps)).getD ((i + 1) * 2) Json.null
        = (interleave y ps).getD (i * 2) Json.null
      have harith : (i + 1) * 2 = i * 2 + 1 + 1 := by omega
      rw [harith]
      simp only [interleave, List.getD_cons_succ]
    rw [List.map_congr_left (fun i _ => hshift i), ih y, List.map_cons]

theorem to_json_operator_interleave (x y : Json) (o : String)
    (ps : List (String × Json)) :
    to_json_operator (interleave x ((o, y) :: ps))
      = Json.obj [(opNameOf o, Json.arr (x :: y :: ps.map Prod.snd))] := by
  unfold to_json_operator
  have h1 : (interleave x ((o, y) :: ps)).getD 1 Json.null = Json.str o := by
    simp [interleave]
  rw [h1]
  have h2 := interleave_extract ((o, y) :: ps) x
  simp only [List.map_cons] at h2
  rw [h2]

theorem parseLevel_shape {fuel : Nat} {o : OpSpec} {sub : P Json}
    {s : List Char} {pos : Nat} {j : Json} {p' : Nat}
    (h : parseLevel fuel o sub s pos = some (j, p')) :
    (∃ q, sub s pos = some (j, q)) ∨
    ∃ nm ops, j = Json.obj [(nm, Json.arr ops)] ∧ 2 ≤ ops.length := by
  simp only [parseLevel] at h
  cases hs : sub s pos with
  | none => simp only [hs] at h; exact absurd h (by simp)
  | some v =>
    obtain ⟨x, p⟩ := v
    simp only [hs] at h
    cases hpairs : (manyTail (opPairStep o sub) fuel s p).1 with
    | nil =>
      simp only [hpairs, Option.some.injEq, Prod.mk.injEq] at h
      obtain ⟨hx, hp⟩ := h
      subst hx
      exact Or.inl ⟨p, rfl⟩
    | cons pr rest =>
      obtain ⟨t, y⟩ := pr
      simp only [hpairs, Option.some.injEq, Prod.mk.injEq] at h
      refine Or.inr ⟨opNameOf t, x :: y :: rest.map Prod.snd, ?_, by simp⟩
      rw [← h.1, to_json_operator_interleave]

theorem to_json_operator_binary (x y : Json) (t : String) :
    to_json_operator [x, Json.str t, y]
      = Json.obj [(opNameOf t, Json.arr [x, y])] := by
  simp [to_json_operator, List.range_succ]

/-! ## Claim theorems -/

/-- C1 (counterexample): the spec claims the operators form shared
precedence bands with left-associativity inside a band, so that
`a - b + c` parses left-to-right to `add(sub(a, b), c)`.  The grammar gives
every `KNOWN_OPS` entry its own `infixNotation` level with `+` tighter than
`-`, so `a - b + c` actually parses to `sub(a, add(b, c))`, which differs
from the claimed node. -/
theorem C1_counterexample :
    parseExpr "a - b + c"
      = some (Json.obj [("sub", Json.arr [Json.str "a",
          Json.obj [("add", Json.arr [Json.str "b", Json.str "c"])]])]) ∧
    Json.obj [("sub", Json.arr [Json.str "a",
        Json.obj [("add", Json.arr [Json.str "b", Json.str "c"])]])]
      ≠ Json.obj [("add", Json.arr [Json.obj [("sub",
          Json.arr [Json.str "a", Json.str "b"])], Json.str "c"])] :=
  ⟨rfl, by simp⟩

/-- C1 (amended): each `KNOWN_OPS` entry is its own precedence level, in
list order, tightest first (`*` > `/` > `+` > `-` > `=` > `==` > `!=` >
`<>` > `>` > `<` > `>=` > `<=` > `in` > `and` > `or`), each level
left-associative (a chain of one operator flattens into one node).  In
particular `1 + 2 * 3` still parses to `add(1, mult(2, 3))`, but within the
spec's claimed bands the later operator binds tighter: `a / b * c` →
`div(a, mult(b, c))`, `a - b + c` → `sub(a, add(b, c))`,
`a < b = c` → `lt(a, eq(b, c))`. -/
theorem C1_amended :
    parseExpr "1 + 2 * 3"
      = some (Json.obj [("add", Json.arr [Json.int 1,
          Json.obj [("mult", Json.arr [Json.int 2, Json.int 3])]])]) ∧
    parseExpr "a / b * c"
      = some (Json.obj [("div", Json.arr [Json.str "a",
          Json.obj [("mult", Json.arr [Json.str "b", Json.str "c"])]])]) ∧
    parseExpr "a - b + c"
      = some (Json.obj [("sub", Json.arr [Json.str "a",
          Json.obj [("add", Json.arr [Json.str "b", Json.str "c"])]])]) ∧
    parseExpr "a < b = c"
      = some (Json.obj [("lt", Json.arr [Json.str "a",
          Json.obj [("eq", Json.arr [Json.str "b", Json.str "c"])]])]) ∧
    parseExpr "a or b and c"
      = some (Json.obj [("or", Json.arr [Json.str "a",
          Json.obj [("and", Json.arr [Json.str "b", Json.str "c"])]])]) ∧
    parseExpr "a - b - c"
      = some (Json.obj [("sub", Json.arr [Json.str "a", Json.str "b", Json.str "c"])]) :=
  ⟨rfl, rfl, rfl, rfl, rfl, rfl⟩

/-- C2: a chain of the literally identical binary operator flattens into
one single NaryOp node listing every operand in source order (`a + b + c` →
`add(a, b, c)`, `a and b and c` → `and(a, b, c)`), and every node that an
`infixNotation` level builds through `to_json_operator` — the only way a
NaryOp node is ever produced — carries all the chained operands and hence
at least 2 of them. -/
theorem C2_nary_flattening :
    parseExpr "a + b + c"
      = some (Json.obj [("add", Json.arr [Json.str "a", Json.str "b", Json.str "c"])]) ∧
    parseExpr "a and b and c"
      = some (Json.obj [("and", Json.arr [Json.str "a", Json.str "b", Json.str "c"])]) ∧
    parseExpr "a + b + c + d"
      = some (Json.obj [("add",
          Json.arr [Json.str "a", Json.str "b", Json.str "c", Json.str "d"])]) ∧
    (∀ (x y : Json) (o : String) (ps : List (String × Json)),
      to_json_operator (interleave x ((o, y) :: ps))
        = Json.obj [(opNameOf o, Json.arr (x :: y :: ps.map Prod.snd))]) ∧
    (∀ (fuel : Nat) (o : OpSpec) (sub : P Json) (s : List Char) (pos : Nat)
        (j : Json) (p' : Nat), parseLevel fuel o sub s pos = some (j, p') →
      (∃ q, sub s pos = some (j, q)) ∨
      ∃ nm ops, j = Json.obj [(nm, Json.arr ops)] ∧ 2 ≤ ops.length) :=
  ⟨rfl, rfl, rfl,
   fun x y o ps => to_json_operator_interleave x y o ps,
   fun _ _ _ _ _ _ _ h => parseLevel_shape h⟩

/-- C2 (witness): the last conjunct of `C2_nary_flattening` applied to the
concrete level parse of `1+2+3` over the integer-literal primary. -/
theorem C2_witness :
    (∃ q, intNumP "1+2+3".toList 0
        = some (Json.obj [("add", Json.arr [Json.int 1, Json.int 2, Json.int 3])], q)) ∨
    ∃ nm ops, Json.obj [("add", Json.arr [Json.int 1, Json.int 2, Json.int 3])]
        = Json.obj [(nm, Json.arr ops)] ∧ 2 ≤ ops.length :=
  C2_nary_flattening.2.2.2.2 10 ⟨"+", "add", false⟩ intNumP "1+2+3".toList 0
    (Json.obj [("add", Json.arr [Json.int 1, Json.int 2, Json.int 3])]) 5 rfl

/-- C3 (counterexample): the claim says a bare word that case-insensitively
equals a reserved keyword *or operator name* is rejected by the identifier
production.  The operator `Keyword`s `in`/`and`/`or` are built without
`caseless=True`, so upper-case `AND` is not reserved: the identifier
production accepts it and `select AND` parses successfully, contradicting
the claimed rejection. -/
theorem C3_counterexample :
    parseSQL "select AND"
      = Except.ok (Json.obj [("select",
          Json.arr [Json.obj [("value", Json.str "AND")]])]) ∧
    identP "select AND".toList 6 = some (Json.str "AND", 10) :=
  ⟨rfl, rfl⟩

/-- C3 (amended): a bare identifier is rejected when the text at its start
matches one of the statement keywords *case-insensitively*, or one of the
operator tokens *case-sensitively* (`in`/`and`/`or` and the symbolic
operators): `select from from from` and `select FROM` fail, the quoted form
`select "from" from t` succeeds, and the case-sensitive gap admits `AND` as
a plain identifier. -/
theorem C3_amended :
    parseSQL "select from from from" = Except.error none ∧
    parseSQL "select FROM" = Except.error none ∧
    parseSQL "select \"from\" from t"
      = Except.ok (Json.obj [("select",
          Json.arr [Json.obj [("value", Json.str "from")]]),
          ("from", Json.arr [Json.str "t"])]) ∧
    reservedAt "from x".toList 0 = true ∧
    reservedAt "FROM x".toList 0 = true ∧
    reservedAt "and x".toList 0 = true ∧
    reservedAt "AND x".toList 0 = false :=
  ⟨rfl, rfl, rfl, rfl, rfl, rfl, rfl⟩

/-- C4: `'it''s'` decodes to the text `it's` and the quoted identifier
`"a""b"` to `a"b` (the doubled quote becomes one literal quote), and the
remaining backslash escapes (`\n`, `\t`, `\\`) decode to the characters
they denote, so the AST carries fully-unescaped text. -/
theorem C4_quote_unescaping :
    parseExpr "'it''s'" = some (Json.str "it's") ∧
    parseExpr "\"a\"\"b\"" = some (Json.str "a\"b") ∧
    unquote "'it''s'" = some (Json.str "it's") ∧
    unquote "\"a\"\"b\"" = some (Json.str "a\"b") ∧
    parseExpr "'a\\nb'" = some (Json.str "a\nb") ∧
    parseExpr "'a\\tb'" = some (Json.str "a\tb") ∧
    parseExpr "'a\\\\b'" = some (Json.str "a\\b") :=
  ⟨rfl, rfl, rfl, rfl, rfl, rfl, rfl⟩

/-- C5: a FunctionCall's params value is `null` for zero arguments, the
single argument node itself for one, and the ordered argument sequence for
two or more: `SELECT f(1, 2)` → `{f: [1, 2]}`, `SELECT f()` → `{f: null}`,
`f(7)` → `{f: 7}`; and `to_json_call` does this for every parameter list. -/
theorem C5_function_params :
    parseSQL "SELECT f(1, 2)"
      = Except.ok (Json.obj [("select", Json.arr [Json.obj [("value",
          Json.obj [("f", Json.arr [Json.int 1, Json.int 2])])]])]) ∧
    parseSQL "SELECT f()"
      = Except.ok (Json.obj [("select", Json.arr [Json.obj [("value",
          Json.obj [("f", Json.null)])]])]) ∧
    parseExpr "f(7)" = some (Json.obj [("f", Json.int 7)]) ∧
    (∀ op : String, to_json_call op [] = Json.obj [(strLower op, Json.null)]) ∧
    (∀ (op : String) (x : Json), to_json_call op [x] = Json.obj [(strLower op, x)]) ∧
    (∀ (op : String) (x y : Json) (zs : List Json),
      to_json_call op (x :: y :: zs)
        = Json.obj [(strLower op, Json.arr (x :: y :: zs))]) :=
  ⟨rfl, rfl, rfl, fun _ => rfl, fun _ _ => rfl, fun _ _ _ _ => rfl⟩

/-- C6: clauses out of the order FROM, WHERE, GROUP BY, HAVING, ORDER BY
make the whole-input parse fail with a syntax error carrying the offset of
the out-of-place clause keyword, and no AST is produced:
`SELECT a ORDER BY a WHERE true` fails at offset 20, which is where `WHERE`
starts; `SELECT a FROM t HAVING x WHERE y` fails at offset 25, where its
`WHERE` starts; the in-order `SELECT a FROM t WHERE x HAVING y` parses. -/
theorem C6_clause_order :
    parseSQL "SELECT a ORDER BY a WHERE true" = Except.error (some 20) ∧
    ("SELECT a ORDER BY a WHERE true".toList.drop 20).take 5 = "WHERE".toList ∧
    parseSQL "SELECT a FROM t HAVING x WHERE y" = Except.error (some 25) ∧
    ("SELECT a FROM t HAVING x WHERE y".toList.drop 25).take 5 = "WHERE".toList ∧
    parseSQL "SELECT a FROM t WHERE x HAVING y"
      = Except.ok (Json.obj [("select", Json.arr [Json.obj [("value", Json.str "a")]]),
          ("from", Json.arr [Json.str "t"]),
          ("where", Json.str "x"), ("having", Json.str "y")]) :=
  ⟨rfl, rfl, rfl, rfl, rfl⟩

/-- C7 (counterexample): the claim says `- expr` yields a UnaryOp tagged
`negate`; the grammar sets the result value of the `-` token to `"neg"`, so
the node is `{neg: 1}`, not `{negate: 1}`. -/
theorem C7_counterexample :
    parseExpr "- 1" = some (Json.obj [("neg", Json.int 1)]) ∧
    Json.obj [("neg", Json.int 1)] ≠ Json.obj [("negate", Json.int 1)] :=
  ⟨rfl, by simp⟩

/-- C7 (amended): the unary prefix operators are tagged `neg`, `not` and
`distinct`: `- expr` → `{neg: expr}`, `not expr` → `{not: expr}`,
`distinct expr` → `{distinct: expr}`. -/
theorem C7_amended :
    parseExpr "-x" = some (Json.obj [("neg", Json.str "x")]) ∧
    parseExpr "not a" = some (Json.obj [("not", Json.str "a")]) ∧
    parseExpr "distinct a" = some (Json.obj [("distinct", Json.str "a")]) :=
  ⟨rfl, rfl, rfl⟩

/-- C8: `CASE` accepts zero or more `WHEN expr THEN expr` pairs, then an
optional `ELSE expr`, then a mandatory `END` (whose absence is a parse
failure); the Case node is the sequence of `{when, then}` nodes with the
else expression, when present, appended as the single final element. -/
theorem C8_case_structure :
    parseExpr "case when a then b when c then d else e end"
      = some (Json.obj [("case", Json.arr
          [Json.obj [("when", Json.str "a"), ("then", Json.str "b")],
           Json.obj [("when", Json.str "c"), ("then", Json.str "d")],
           Json.str "e"])]) ∧
    parseExpr "case when a then b end"
      = some (Json.obj [("case", Json.arr
          [Json.obj [("when", Json.str "a"), ("then", Json.str "b")]])]) ∧
    parseExpr "case else e end"
      = some (Json.obj [("case", Json.arr [Json.str "e"])]) ∧
    parseExpr "case end" = some (Json.obj [("case", Json.arr [])]) ∧
    parseExpr "case when a then b" = none ∧
    (∀ (whens : List Json) (els : Json),
      to_case_call whens (some els) = Json.obj [("case", Json.arr (whens ++ [els]))]) ∧
    (∀ whens : List Json,
      to_case_call whens none = Json.obj [("case", Json.arr whens)]) :=
  ⟨rfl, rfl, rfl, rfl, rfl, fun _ _ => rfl, fun whens => by simp [to_case_call]⟩

/-- C9: in every successfully parsed SELECT statement with a FROM clause,
the from sequence is the table references produced by `tableName` (never
Join nodes) followed by the Join nodes, so its first element is a bare
table reference and every Join node follows at least one of them. -/
theorem C9_from_first_tableref (input : String) (ast : Json) (l : List Json)
    (hok : parseSQL input = Except.ok ast)
    (hfrom : lookupField ast "from" = some (Json.arr l)) :
    ∃ tables joins : List Json,
      l = tables ++ joins ∧ tables ≠ [] ∧
      (∀ t ∈ tables, isJoinNode t = false) ∧
      (∀ j ∈ joins, isJoinNode j = true) := by
  simp only [parseSQL] at hok
  cases hsel : selectStmtP FUEL input.toList 0 with
  | none => simp only [hsel] at hok; exact absurd hok (by simp)
  | some v =>
    obtain ⟨ast0, p⟩ := v
    simp only [hsel] at hok
    split at hok
    · simp only [Except.ok.injEq] at hok
      subst hok
      obtain ⟨tables, joins, heq, hne, hts, hjs⟩ := selectStmtP_from hsel hfrom
      simp only [Json.arr.injEq] at heq
      exact ⟨tables, joins, heq, hne, hts, hjs⟩
    · exact absurd hok (by simp)

/-- C9 (witness): the theorem applied to the concrete parse of
`select a from t join u on a`. -/
theorem C9_witness :
    ∃ tables joins : List Json,
      ([Json.str "t", Json.obj [("join", Json.str "u"), ("on", Json.str "a")]]
          : List Json)
        = tables ++ joins ∧ tables ≠ [] ∧
      (∀ t ∈ tables, isJoinNode t = false) ∧
      (∀ j ∈ joins, isJoinNode j = true) :=
  C9_from_first_tableref "select a from t join u on a"
    (Json.obj [("select", Json.arr [Json.obj [("value", Json.str "a")]]),
      ("from", Json.arr [Json.str "t",
        Json.obj [("join", Json.str "u"), ("on", Json.str "a")]])])
    [Json.str "t", Json.obj [("join", Json.str "u"), ("on", Json.str "a")]]
    rfl rfl

/-- C10: `==` produces the same AST as `=` (one `eq` node) and `!=` the
same as `<>` (one `neq` node), both at concrete parses and through
`to_json_operator` for arbitrary operands, so the surface form of the
synonym is not recoverable from the AST. -/
theorem C10_operator_synonyms :
    parseExpr "a == b" = parseExpr "a = b" ∧
    parseExpr "a = b"
      = some (Json.obj [("eq", Json.arr [Json.str "a", Json.str "b"])]) ∧
    parseExpr "a != b" = parseExpr "a <> b" ∧
    parseExpr "a <> b"
      = some (Json.obj [("neq", Json.arr [Json.str "a", Json.str "b"])]) ∧
    opNameOf "==" = opNameOf "=" ∧
    opNameOf "!=" = opNameOf "<>" ∧
    (∀ x y : Json,
      to_json_operator [x, Json.str "==", y] = to_json_operator [x, Json.str "=", y]) ∧
    (∀ x y : Json,
      to_json_operator [x, Json.str "!=", y] = to_json_operator [x, Json.str "<>", y]) :=
  ⟨rfl, rfl, rfl, rfl, rfl, rfl,
   fun x y => by rw [to_json_operator_binary, to_json_operator_binary]; exact rfl,
   fun x y => by rw [to_json_operator_binary, to_json_operator_binary]; exact rfl⟩
